import Mathlib

set_option maxRecDepth 8000

/-!
Verification development for the guest-components core: a shallow embedding of
the key-broker client logic in
`attestation-agent/coco_keyprovider/src/enc_mods/kbs.rs` and of the
encrypted-artifact resolution pipeline in `tee-wasm-runner/src/main.rs`.

Bytes and Unicode scalar values are modelled as `Nat`; text is `List Char` or
`String.data`; fallible operations return `Except` or `Option`.
-/

/-! Library model: Rust standard-library and crate helpers used by the code
under verification (UTF-8 lossy decoding, Unicode whitespace trimming, and the
`base64` crate's STANDARD engine). -/

/-- Rust `char::is_whitespace`: membership in the Unicode White_Space set. -/
def rustIsWhitespace (c : Nat) : Bool :=
  decide ((9 ≤ c ∧ c ≤ 13) ∨ c = 32 ∨ c = 0x85 ∨ c = 0xA0 ∨ c = 0x1680 ∨
    (0x2000 ≤ c ∧ c ≤ 0x200A) ∨ c = 0x2028 ∨ c = 0x2029 ∨ c = 0x202F ∨
    c = 0x205F ∨ c = 0x3000)

/-- Rust `String::from_utf8_lossy`, as a map from a byte sequence to the code
points of the resulting string: well-formed UTF-8 sequences decode to their
scalar value and each maximal ill-formed subpart becomes U+FFFD. -/
def utf8LossyDecode : List Nat → List Nat
  | [] => []
  | b :: rest =>
    if b < 0x80 then b :: utf8LossyDecode rest
    else if 0xC2 ≤ b ∧ b ≤ 0xDF then
      match h1 : rest with
      | [] => [0xFFFD]
      | c1 :: rest1 =>
        if 0x80 ≤ c1 ∧ c1 ≤ 0xBF then
          ((b - 0xC0) * 0x40 + (c1 - 0x80)) :: utf8LossyDecode rest1
        else 0xFFFD :: utf8LossyDecode rest
    else if 0xE0 ≤ b ∧ b ≤ 0xEF then
      match h1 : rest with
      | [] => [0xFFFD]
      | c1 :: rest1 =>
        if (if b = 0xE0 then 0xA0 else 0x80) ≤ c1 ∧
            c1 ≤ (if b = 0xED then 0x9F else 0xBF) then
          match h2 : rest1 with
          | [] => [0xFFFD]
          | c2 :: rest2 =>
            if 0x80 ≤ c2 ∧ c2 ≤ 0xBF then
              ((b - 0xE0) * 0x1000 + (c1 - 0x80) * 0x40 + (c2 - 0x80)) ::
                utf8LossyDecode rest2
            else 0xFFFD :: utf8LossyDecode rest1
        else 0xFFFD :: utf8LossyDecode rest
    else if 0xF0 ≤ b ∧ b ≤ 0xF4 then
      match h1 : rest with
      | [] => [0xFFFD]
      | c1 :: rest1 =>
        if (if b = 0xF0 then 0x90 else 0x80) ≤ c1 ∧
            c1 ≤ (if b = 0xF4 then 0x8F else 0xBF) then
          match h2 : rest1 with
          | [] => [0xFFFD]
          | c2 :: rest2 =>
            if 0x80 ≤ c2 ∧ c2 ≤ 0xBF then
              match h3 : rest2 with
              | [] => [0xFFFD]
              | c3 :: rest3 =>
                if 0x80 ≤ c3 ∧ c3 ≤ 0xBF then
                  ((b - 0xF0) * 0x40000 + (c1 - 0x80) * 0x1000 +
                    (c2 - 0x80) * 0x40 + (c3 - 0x80)) :: utf8LossyDecode rest3
                else 0xFFFD :: utf8LossyDecode rest2
            else 0xFFFD :: utf8LossyDecode rest1
        else 0xFFFD :: utf8LossyDecode rest
    else 0xFFFD :: utf8LossyDecode rest
termination_by l => l.length
decreasing_by all_goals (first | omega | (simp_all; omega) | simp_all)

/-- Rust `str::trim` on a sequence of code points: drop Unicode whitespace from
both ends. -/
def rustTrim (s : List Nat) : List Nat :=
  ((s.dropWhile rustIsWhitespace).reverse.dropWhile rustIsWhitespace).reverse

/-- UTF-8 encoding of one Unicode scalar value (Rust `str::as_bytes` per char). -/
def utf8EncodeChar (c : Nat) : List Nat :=
  if c < 0x80 then [c]
  else if c < 0x800 then [0xC0 + c / 0x40, 0x80 + c % 0x40]
  else if c < 0x10000 then
    [0xE0 + c / 0x1000, 0x80 + c / 0x40 % 0x40, 0x80 + c % 0x40]
  else
    [0xF0 + c / 0x40000, 0x80 + c / 0x1000 % 0x40, 0x80 + c / 0x40 % 0x40,
      0x80 + c % 0x40]

/-- UTF-8 encoding of a sequence of code points (Rust `str::as_bytes`). -/
def utf8Encode : List Nat → List Nat
  | [] => []
  | c :: rest => utf8EncodeChar c ++ utf8Encode rest

/-- Standard base64 alphabet: the character for a 6-bit value. -/
def b64CharOf (v : Nat) : Nat :=
  if v < 26 then 65 + v
  else if v < 52 then 97 + (v - 26)
  else if v < 62 then 48 + (v - 52)
  else if v = 62 then 43
  else 47

/-- Standard base64 alphabet: the 6-bit value of a character, if any. -/
def b64Val (c : Nat) : Option Nat :=
  if 65 ≤ c ∧ c ≤ 90 then some (c - 65)
  else if 97 ≤ c ∧ c ≤ 122 then some (26 + (c - 97))
  else if 48 ≤ c ∧ c ≤ 57 then some (52 + (c - 48))
  else if c = 43 then some 62
  else if c = 47 then some 63
  else none

/-- base64 STANDARD encoding of a byte sequence, producing the character codes
of the encoded text (with canonical `=` padding, char code 61). -/
def base64EncodeChars : List Nat → List Nat
  | [] => []
  | [x] => [b64CharOf (x / 4), b64CharOf (x % 4 * 16), 61, 61]
  | [x, y] =>
    [b64CharOf (x / 4), b64CharOf (x % 4 * 16 + y / 16), b64CharOf (y % 16 * 4),
      61]
  | x :: y :: z :: rest =>
    b64CharOf (x / 4) :: b64CharOf (x % 4 * 16 + y / 16) ::
      b64CharOf (y % 16 * 4 + z / 64) :: b64CharOf (z % 64) ::
      base64EncodeChars rest

/-- base64 STANDARD decoding (the `base64` crate's
`general_purpose::STANDARD` engine): canonical padding is required, `=` may
only appear in the final quantum, non-alphabet characters are rejected, and
non-zero trailing bits are rejected. -/
def base64Decode : List Nat → Option (List Nat)
  | [] => some []
  | a :: b :: c :: d :: rest =>
    if rest = [] ∧ c = 61 ∧ d = 61 then
      (b64Val a).bind fun va => (b64Val b).bind fun vb =>
        if vb % 16 = 0 then some [va * 4 + vb / 16] else none
    else if rest = [] ∧ d = 61 then
      (b64Val a).bind fun va => (b64Val b).bind fun vb =>
        (b64Val c).bind fun vc =>
          if vc % 4 = 0 then some [va * 4 + vb / 16, vb % 16 * 16 + vc / 4]
          else none
    else
      (b64Val a).bind fun va => (b64Val b).bind fun vb =>
        (b64Val c).bind fun vc => (b64Val d).bind fun vd =>
          (base64Decode rest).map fun tail =>
            (va * 4 + vb / 16) :: (vb % 16 * 16 + vc / 4) ::
              (vc % 4 * 64 + vd) :: tail
  | _ => none

/-! Embedding of `coco_keyprovider/src/enc_mods/kbs.rs`. -/

/-- Failure of the key-normalization tail of `get_kek` (kbs.rs lines 53-89).
`decodeFailed origLen trimmed` is the `context` message attached when the
base64 decode of the trimmed text fails: it reports the original byte length
and the trimmed key text. `badDecodedLength origLen decodedLen` is the `bail`
message raised when the decode succeeds with a length other than 32: it
reports the original and the decoded byte lengths. -/
inductive KekError where
  | decodeFailed (origLen : Nat) (trimmed : List Nat)
  | badDecodedLength (origLen : Nat) (decodedLen : Nat)
deriving DecidableEq

/-- The original byte length reported by a `KekError` message. -/
def KekError.reportedOriginalLength : KekError → Nat
  | KekError.decodeFailed n _ => n
  | KekError.badDecodedLength n _ => n

/-- Whether a `KekError` message reports a decoded byte length. -/
def KekError.mentionsDecodedLength : KekError → Bool
  | KekError.decodeFailed _ _ => false
  | KekError.badDecodedLength _ _ => true

/-- Tail of `get_kek` (kbs.rs lines 51-93): if the fetched key is not 32
bytes, interpret it as UTF-8 text (`String::from_utf8_lossy`), trim
surrounding whitespace, base64-decode, and accept the decode only if it
yields exactly 32 bytes; a 32-byte key is returned unchanged. -/
def get_kek_normalize (key : List Nat) : Except KekError (List Nat) :=
  if key.length ≠ 32 then
    let trimmed := rustTrim (utf8LossyDecode key)
    match base64Decode (utf8Encode trimmed) with
    | none => Except.error (KekError.decodeFailed key.length trimmed)
    | some decoded =>
      if decoded.length = 32 then Except.ok decoded
      else Except.error (KekError.badDecodedLength key.length decoded.length)
  else Except.ok key

/-- Rust `kid.strip_prefix('/').unwrap_or(kid)` (kbs.rs lines 20 and 104):
remove one leading path separator, if present. -/
def stripLeadingSlash : List Char → List Char
  | [] => []
  | c :: rest => if c = '/' then rest else c :: rest

/-- Structured resource locator with repository, type and tag components. -/
structure ResourceIdentifier where
  repository : List Char
  resourceType : List Char
  tag : List Char
deriving DecidableEq

/-- Split a character sequence at every path separator. -/
def splitOnSlash (s : List Char) : List (List Char) :=
  s.foldr
    (fun c acc =>
      if c = '/' then [] :: acc
      else
        match acc with
        | [] => [[c]]
        | g :: gs => (c :: g) :: gs)
    [[]]

/-- Modelled from the spec: the `ResourceUri` parser of the `resource_uri`
crate is not under `src/`; the specification describes a "structured locator
`repo/type/tag` parsed from a string of the form repo/type/tag". -/
def parseResourceIdentifier (s : List Char) : Option ResourceIdentifier :=
  match splitOnSlash s with
  | [r, t, g] =>
    if r ≠ [] ∧ t ≠ [] ∧ g ≠ [] then some ⟨r, t, g⟩ else none
  | _ => none

/-- The resource identifier `get_kek` (kbs.rs lines 19-32) builds: the kid is
stripped of a leading separator, formatted as `kbs:///kid`, and the path part
is parsed into repository, type and tag. -/
def get_kek_resource_id (kid : List Char) : Option ResourceIdentifier :=
  parseResourceIdentifier (stripLeadingSlash kid)

/-- The URL path `register_kek` (kbs.rs lines 104-114) posts to:
`kbs/v0/resource/` followed by the kid stripped of a leading separator. -/
def register_kek_path (kid : List Char) : List Char :=
  "kbs/v0/resource/".data ++ stripLeadingSlash kid

/-- The observable shape of the HTTP POST issued by `register_kek`. -/
structure HttpPostRequest where
  path : List Char
  contentType : List Char
  bearerAuth : Bool
  body : List Nat
deriving DecidableEq

/-- Outcome of `reqwest::RequestBuilder::send`: a transport-level failure, or
a response carrying some HTTP status code (success or not). -/
inductive SendOutcome where
  | transportError
  | response (status : Nat)
deriving DecidableEq

/-- Failure of `register_kek`; the `?` on `send` surfaces only transport
failures. -/
inductive RegisterError where
  | transport
deriving DecidableEq

/-- The request `register_kek` (kbs.rs lines 98-123) builds: a POST to the
deterministic resource path with `Content-Type: application/octet-stream`,
bearer-authenticated with the signed two-hour assertion, whose body is the
raw key bytes. -/
def register_kek_request (kid : List Char) (key : List Nat) : HttpPostRequest :=
  { path := register_kek_path kid
    contentType := "application/octet-stream".data
    bearerAuth := true
    body := key }

/-- `register_kek` (kbs.rs lines 98-126): send the request through the given
transport; propagate a transport failure, and discard the response
(`let _ = client.post(..).send().await?`), returning success whatever its
status. -/
def register_kek (kid : List Char) (key : List Nat)
    (transport : HttpPostRequest → SendOutcome) : Except RegisterError Unit :=
  match transport (register_kek_request kid key) with
  | SendOutcome.transportError => Except.error RegisterError.transport
  | SendOutcome.response _ => Except.ok ()

/-- HTTP success status (`reqwest::StatusCode::is_success`): 2xx. -/
def isSuccessStatus (status : Nat) : Bool := decide (200 ≤ status ∧ status < 300)

/-! Embedding of `tee-wasm-runner/src/main.rs`. -/

/-- Rust `str::contains` for a needle pattern: substring occurrence. -/
def strContains (needle : List Char) : List Char → Bool
  | [] => needle.isEmpty
  | c :: rest => needle.isPrefixOf (c :: rest) || strContains needle rest

/-- A manifest descriptor: only the media type and digest strings are read by
the runner. -/
structure OciDescriptor where
  mediaType : List Char
  digest : List Char
deriving DecidableEq

/-- The pulled image manifest: a config descriptor and a layer list. -/
structure OciImageManifest where
  config : OciDescriptor
  layers : List OciDescriptor
deriving DecidableEq

/-- Classifier (main.rs lines 196-200): the config media type or some layer
media type contains the marker substring `wasm`. -/
def is_wasm_image (m : OciImageManifest) : Bool :=
  strContains "wasm".data m.config.mediaType ||
    m.layers.any (fun l => strContains "wasm".data l.mediaType)

/-- Classifier (main.rs lines 203-206): some layer media type contains the
marker substring `encrypted`. -/
def is_encrypted (m : OciImageManifest) : Bool :=
  m.layers.any (fun l => strContains "encrypted".data l.mediaType)

/-- The two pull paths of `pull_and_decrypt_wasm`. -/
inductive PullPath where
  | directBlob
  | layeredPull
deriving DecidableEq

/-- Path selection (main.rs line 213): the direct-blob branch is taken for a
WASM, non-encrypted image; every other combination goes through the layered
pull. -/
def choose_pull_path (m : OciImageManifest) : PullPath :=
  if is_wasm_image m && !is_encrypted m then PullPath.directBlob
  else PullPath.layeredPull

/-- Diff-id derivation of the layered path (main.rs lines 276-301): when the
image configuration yields no diff-ids and the manifest has layers, one
placeholder per layer is synthesized - the empty string for an encrypted
image, the layer's own digest otherwise; a non-empty diff-id list is used
unchanged. -/
def compute_diff_ids (diff_ids : List (List Char)) (layers : List OciDescriptor)
    (encrypted : Bool) : List (List Char) :=
  if diff_ids.isEmpty && !layers.isEmpty then
    layers.map fun layer => if encrypted then [] else layer.digest
  else diff_ids

/-- Rust `digest.replace("sha256:", "")` (main.rs line 235): remove every
non-overlapping occurrence of the literal substring `sha256:`, scanning left
to right. -/
def stripSha256 : List Char → List Char
  | 's' :: 'h' :: 'a' :: '2' :: '5' :: '6' :: ':' :: rest => stripSha256 rest
  | c :: rest => c :: stripSha256 rest
  | [] => []

/-- Filename of the direct-blob output (main.rs line 235):
`format!("{}.wasm", wasm_layer.digest.replace("sha256:", ""))`. -/
def direct_blob_filename (digest : List Char) : List Char :=
  stripSha256 digest ++ ".wasm".data

/-- The direct-blob path takes the first layer (main.rs lines 216-219, erring
when there is none) and derives the output filename from its digest. -/
def direct_blob_path_filename (m : OciImageManifest) : Option (List Char) :=
  m.layers.head?.map fun l => direct_blob_filename l.digest

/-- Follows the specification words, for comparison with the source-derived
`direct_blob_filename`: the digest with its algorithm prefix (everything up to
and including the first colon) removed, followed by the module extension. -/
def specExpectedFilename (digest : List Char) : List Char :=
  (digest.dropWhile fun c => c != ':').tail ++ ".wasm".data

/-- A direct entry of a directory, as observed through `std::fs::read_dir`:
its file name and whether it is a regular file. -/
structure DirEntry where
  name : List Char
  isFile : Bool
deriving DecidableEq

/-- Rust `Path::extension` on a file name: the portion after the final dot,
none when there is no dot or when the only dot leads the name. -/
def fileExtension (name : List Char) : Option (List Char) :=
  match name.reverse.dropWhile (fun c => c != '.') with
  | [] => none
  | [_] => none
  | _ :: _ :: _ => some (name.reverse.takeWhile (fun c => c != '.')).reverse

/-- The fixed-filename check (main.rs lines 343-346): an entry named
`module.wasm` that is a regular file. -/
def isModuleWasmEntry (e : DirEntry) : Bool :=
  (e.name == "module.wasm".data) && e.isFile

/-- The fallback search predicate (main.rs lines 367-377): a regular file
whose extension is `wasm`. -/
def isWasmFileEntry (e : DirEntry) : Bool :=
  e.isFile && (fileExtension e.name == some "wasm".data)

/-- Failures of module location in the layered path. -/
inductive LocateError where
  | noLayers
  | notFound (storePath : List Char)
deriving DecidableEq

/-- Module location (main.rs lines 343-383): check the fixed name
`module.wasm` in the store path first; otherwise return the first direct
entry that is a regular file with extension `wasm`; otherwise fail naming the
searched store path. -/
def locate_module (storePath : List Char) (entries : List DirEntry) :
    Except LocateError (List Char) :=
  if entries.any isModuleWasmEntry then
    Except.ok (storePath ++ "/module.wasm".data)
  else
    match entries.find? isWasmFileEntry with
    | some e => Except.ok (storePath ++ '/' :: e.name)
    | none => Except.error (LocateError.notFound storePath)

/-- After the layered pull (main.rs lines 334-383): take the store path of
the first materialized layer (erring when there is none) and locate the
module inside that single directory; `fs` maps a store path to its direct
entries. -/
def find_module_after_layered_pull (storePaths : List (List Char))
    (fs : List Char → List DirEntry) : Except LocateError (List Char) :=
  match storePaths with
  | [] => Except.error LocateError.noLayers
  | p :: _ => locate_module p (fs p)

/-- Validation tail of `get_decryption_key` (main.rs lines 155-164): reject
an empty key with a fixed message, return any non-empty key unchanged. -/
def get_decryption_key_validate (key : List Nat) :
    Except (List Char) (List Nat) :=
  if key.isEmpty then
    Except.error "Invalid decryption key from KBS: Empty key".data
  else Except.ok key

/-! Helper lemmas about the library model. -/

/-- Whitespace test is false on the printable ASCII range and the first bytes
above it. -/
theorem rustIsWhitespace_false_of_range (c : Nat) (h1 : 33 ≤ c) (h2 : c ≤ 132) :
    rustIsWhitespace c = false := by
  unfold rustIsWhitespace
  rw [decide_eq_false_iff_not]
  omega

/-- Dropping while a predicate holds skips a block where it always holds. -/
theorem dropWhile_append_forall {p : Nat → Bool} (l1 l2 : List Nat)
    (h : ∀ a ∈ l1, p a = true) :
    List.dropWhile p (l1 ++ l2) = List.dropWhile p l2 := by
  induction l1 with
  | nil => rfl
  | cons a t ih =>
    rw [List.cons_append, List.dropWhile_cons, h a (by simp)]
    exact ih fun x hx => h x (by simp [hx])

/-- Dropping while a predicate holds stops at a head where it fails. -/
theorem dropWhile_cons_false {p : Nat → Bool} (a : Nat) (l : List Nat)
    (h : p a = false) : List.dropWhile p (a :: l) = a :: l := by
  rw [List.dropWhile_cons, h]
  simp

/-- Trimming a non-whitespace block surrounded by whitespace yields the block. -/
theorem rustTrim_sandwich (ws1 mid ws2 : List Nat)
    (h1 : ∀ c ∈ ws1, rustIsWhitespace c = true)
    (h2 : ∀ c ∈ ws2, rustIsWhitespace c = true)
    (hm : ∀ c ∈ mid, rustIsWhitespace c = false)
    (hne : mid ≠ []) :
    rustTrim (ws1 ++ mid ++ ws2) = mid := by
  obtain ⟨m0, mt, rfl⟩ := List.exists_cons_of_ne_nil hne
  unfold rustTrim
  rw [List.append_assoc, dropWhile_append_forall _ _ h1, List.cons_append,
    dropWhile_cons_false _ _ (hm m0 (by simp)), ← List.cons_append,
    List.reverse_append,
    dropWhile_append_forall _ _ (fun c hc => h2 c (List.mem_reverse.mp hc))]
  obtain ⟨r0, rt, hrev⟩ : ∃ r0 rt, (m0 :: mt).reverse = r0 :: rt := by
    rcases hr : (m0 :: mt).reverse with _ | ⟨a, b⟩
    · exact absurd (List.reverse_eq_nil_iff.mp hr) (by simp)
    · exact ⟨a, b, rfl⟩
  have hr0 : r0 ∈ m0 :: mt := by
    rw [← List.mem_reverse, hrev]
    simp
  rw [hrev, dropWhile_cons_false _ _ (hm r0 hr0), ← hrev, List.reverse_reverse]

/-- Lossy UTF-8 decoding of the empty byte sequence. -/
theorem utf8LossyDecode_nil : utf8LossyDecode [] = [] := by
  rw [utf8LossyDecode.eq_def]

/-- Lossy UTF-8 decoding of an ASCII byte leaves it in place. -/
theorem utf8LossyDecode_cons_ascii (b : Nat) (rest : List Nat) (hb : b < 128) :
    utf8LossyDecode (b :: rest) = b :: utf8LossyDecode rest := by
  rw [utf8LossyDecode.eq_def]
  dsimp only []
  rw [if_pos hb]

/-- Lossy UTF-8 decoding of a well-formed two-byte sequence. -/
theorem utf8LossyDecode_two (b c1 : Nat) (rest : List Nat)
    (hb : 0xC2 ≤ b ∧ b ≤ 0xDF) (hc : 0x80 ≤ c1 ∧ c1 ≤ 0xBF) :
    utf8LossyDecode (b :: c1 :: rest) =
      ((b - 0xC0) * 0x40 + (c1 - 0x80)) :: utf8LossyDecode rest := by
  rw [utf8LossyDecode.eq_def]
  dsimp only []
  rw [if_neg (by omega), if_pos hb, if_pos hc]

/-- Lossy UTF-8 decoding of a well-formed three-byte sequence. -/
theorem utf8LossyDecode_three (b c1 c2 : Nat) (rest : List Nat)
    (hb : 0xE0 ≤ b ∧ b ≤ 0xEF)
    (hc1 : (if b = 0xE0 then 0xA0 else 0x80) ≤ c1 ∧
      c1 ≤ (if b = 0xED then 0x9F else 0xBF))
    (hc2 : 0x80 ≤ c2 ∧ c2 ≤ 0xBF) :
    utf8LossyDecode (b :: c1 :: c2 :: rest) =
      ((b - 0xE0) * 0x1000 + (c1 - 0x80) * 0x40 + (c2 - 0x80)) ::
        utf8LossyDecode rest := by
  rw [utf8LossyDecode.eq_def]
  dsimp only []
  rw [if_neg (by omega), if_neg (by omega), if_pos hb, if_pos hc1, if_pos hc2]

/-- Lossy UTF-8 decoding leaves an ASCII block in place. -/
theorem utf8LossyDecode_ascii_append (l rest : List Nat)
    (h : ∀ b ∈ l, b < 128) :
    utf8LossyDecode (l ++ rest) = l ++ utf8LossyDecode rest := by
  induction l with
  | nil => rfl
  | cons b t ih =>
    rw [List.cons_append, utf8LossyDecode_cons_ascii b _ (h b (by simp)),
      ih (fun x hx => h x (by simp [hx])), List.cons_append]

/-- Lossy UTF-8 decoding of an ASCII byte sequence is the identity. -/
theorem utf8LossyDecode_ascii (l : List Nat) (h : ∀ b ∈ l, b < 128) :
    utf8LossyDecode l = l := by
  have h2 := utf8LossyDecode_ascii_append l [] h
  simpa [utf8LossyDecode_nil] using h2

/-- Lossy UTF-8 decoding inverts the encoding of a two-byte scalar. -/
theorem utf8LossyDecode_enc_two (c : Nat) (rest : List Nat)
    (h : 0x80 ≤ c ∧ c < 0x800) :
    utf8LossyDecode (utf8EncodeChar c ++ rest) = c :: utf8LossyDecode rest := by
  have he : utf8EncodeChar c = [0xC0 + c / 0x40, 0x80 + c % 0x40] := by
    unfold utf8EncodeChar
    rw [if_neg (by omega), if_pos (by omega)]
  rw [he, List.cons_append, List.cons_append, List.nil_append,
    utf8LossyDecode_two _ _ _ (by omega) (by omega)]
  congr 1
  omega

/-- Lossy UTF-8 decoding inverts the encoding of a three-byte scalar away from
the boundary rows (the rows of U+0800..U+0FFF and of the surrogates). -/
theorem utf8LossyDecode_enc_three (c : Nat) (rest : List Nat)
    (h : 0x1000 ≤ c ∧ c < 0xD000) :
    utf8LossyDecode (utf8EncodeChar c ++ rest) = c :: utf8LossyDecode rest := by
  have he : utf8EncodeChar c =
      [0xE0 + c / 0x1000, 0x80 + c / 0x40 % 0x40, 0x80 + c % 0x40] := by
    unfold utf8EncodeChar
    rw [if_neg (by omega), if_neg (by omega), if_pos (by omega)]
  have hb1 : ¬(0xE0 + c / 0x1000 = 0xE0) := by omega
  have hb2 : ¬(0xE0 + c / 0x1000 = 0xED) := by omega
  rw [he, List.cons_append, List.cons_append, List.cons_append, List.nil_append,
    utf8LossyDecode_three _ _ _ _ (by omega)
      (by rw [if_neg hb1, if_neg hb2]; omega) (by omega)]
  congr 1
  omega

/-- Lossy UTF-8 decoding inverts the encoding of any whitespace character. -/
theorem utf8LossyDecode_ws_char (c : Nat) (rest : List Nat)
    (h : rustIsWhitespace c = true) :
    utf8LossyDecode (utf8EncodeChar c ++ rest) = c :: utf8LossyDecode rest := by
  have hc := of_decide_eq_true h
  by_cases h1 : c < 0x80
  · rw [show utf8EncodeChar c = [c] from by unfold utf8EncodeChar; rw [if_pos h1],
      List.cons_append, List.nil_append]
    exact utf8LossyDecode_cons_ascii c rest h1
  · by_cases h2 : c < 0x800
    · exact utf8LossyDecode_enc_two c rest ⟨by omega, h2⟩
    · exact utf8LossyDecode_enc_three c rest ⟨by omega, by omega⟩

/-- Lossy UTF-8 decoding leaves a whitespace block in place. -/
theorem utf8LossyDecode_ws_append (ws rest : List Nat)
    (h : ∀ c ∈ ws, rustIsWhitespace c = true) :
    utf8LossyDecode (utf8Encode ws ++ rest) = ws ++ utf8LossyDecode rest := by
  induction ws with
  | nil => rfl
  | cons c t ih =>
    rw [show utf8Encode (c :: t) = utf8EncodeChar c ++ utf8Encode t from rfl,
      List.append_assoc, utf8LossyDecode_ws_char c _ (h c (by simp)),
      ih (fun x hx => h x (by simp [hx])), List.cons_append]

/-- UTF-8 encoding of an ASCII sequence is the identity. -/
theorem utf8Encode_ascii (l : List Nat) (h : ∀ c ∈ l, c < 128) :
    utf8Encode l = l := by
  induction l with
  | nil => rfl
  | cons c t ih =>
    rw [show utf8Encode (c :: t) = utf8EncodeChar c ++ utf8Encode t from rfl,
      show utf8EncodeChar c = [c] from by
        unfold utf8EncodeChar; rw [if_pos (h c (by simp))],
      ih (fun x hx => h x (by simp [hx])), List.cons_append, List.nil_append]

/-- The base64 alphabet characters sit in the printable ASCII range. -/
theorem b64CharOf_range (v : Nat) : 43 ≤ b64CharOf v ∧ b64CharOf v ≤ 122 := by
  unfold b64CharOf
  repeat' split
  all_goals omega

/-- The base64 alphabet decodes back each 6-bit value, and never collides with
the padding character. -/
theorem b64_char_spec : ∀ v, v < 64 →
    b64Val (b64CharOf v) = some v ∧ b64CharOf v ≠ 61 := by decide

/-- Every character emitted by the base64 encoder is printable ASCII and not
whitespace. -/
theorem base64EncodeChars_props (l : List Nat) :
    ∀ c ∈ base64EncodeChars l, c < 128 ∧ rustIsWhitespace c = false := by
  have hchar : ∀ v, b64CharOf v < 128 ∧ rustIsWhitespace (b64CharOf v) = false := by
    intro v
    have hr := b64CharOf_range v
    exact ⟨by omega, rustIsWhitespace_false_of_range _ (by omega) (by omega)⟩
  have hpad : (61 : Nat) < 128 ∧ rustIsWhitespace 61 = false := by
    refine ⟨by omega, rustIsWhitespace_false_of_range _ (by omega) (by omega)⟩
  induction l using base64EncodeChars.induct with
  | case1 => simp [base64EncodeChars]
  | case2 x =>
    intro c hc
    simp only [base64EncodeChars, List.mem_cons, List.not_mem_nil, or_false] at hc
    rcases hc with rfl | rfl | rfl | rfl
    exacts [hchar _, hchar _, hpad, hpad]
  | case3 x y =>
    intro c hc
    simp only [base64EncodeChars, List.mem_cons, List.not_mem_nil, or_false] at hc
    rcases hc with rfl | rfl | rfl | rfl
    exacts [hchar _, hchar _, hchar _, hpad]
  | case4 x y z rest ih =>
    intro c hc
    simp only [base64EncodeChars, List.mem_cons] at hc
    rcases hc with rfl | rfl | rfl | rfl | h
    exacts [hchar _, hchar _, hchar _, hchar _, ih c h]

/-- The base64 encoding of a non-empty byte sequence is strictly longer than
the sequence itself. -/
theorem base64EncodeChars_length (l : List Nat) (h : l ≠ []) :
    l.length < (base64EncodeChars l).length := by
  induction l using base64EncodeChars.induct with
  | case1 => exact absurd rfl h
  | case2 x => simp [base64EncodeChars]
  | case3 x y => simp [base64EncodeChars]
  | case4 x y z rest ih =>
    by_cases hr : rest = []
    · subst hr
      simp [base64EncodeChars]
    · have := ih hr
      simp only [base64EncodeChars, List.length_cons]
      omega

/-- Decoding inverts the base64 encoding of any byte sequence. -/
theorem base64Decode_encode (l : List Nat) (h : ∀ x ∈ l, x < 256) :
    base64Decode (base64EncodeChars l) = some l := by
  induction l using base64EncodeChars.induct with
  | case1 => rfl
  | case2 x =>
    have hx : x < 256 := h x (by simp)
    have h1 := b64_char_spec (x / 4) (by omega)
    have h2 := b64_char_spec (x % 4 * 16) (by omega)
    simp only [base64EncodeChars, base64Decode]
    rw [if_pos (by simp), h1.1, h2.1]
    simp only [Option.some_bind]
    rw [if_pos (by omega)]
    congr 2
    omega
  | case3 x y =>
    have hx : x < 256 := h x (by simp)
    have hy : y < 256 := h y (by simp)
    have h1 := b64_char_spec (x / 4) (by omega)
    have h2 := b64_char_spec (x % 4 * 16 + y / 16) (by omega)
    have h3 := b64_char_spec (y % 16 * 4) (by omega)
    simp only [base64EncodeChars, base64Decode]
    rw [if_neg (by
        intro hcon
        exact h3.2 hcon.2.1),
      if_pos (by simp), h1.1, h2.1, h3.1]
    simp only [Option.some_bind]
    rw [if_pos (by omega)]
    congr 1
    have e1 : x / 4 * 4 + (x % 4 * 16 + y / 16) / 16 = x := by omega
    have e2 : (x % 4 * 16 + y / 16) % 16 * 16 + y % 16 * 4 / 4 = y := by omega
    rw [e1, e2]
  | case4 x y z rest ih =>
    have hx : x < 256 := h x (by simp)
    have hy : y < 256 := h y (by simp)
    have hz : z < 256 := h z (by simp)
    have h1 := b64_char_spec (x / 4) (by omega)
    have h2 := b64_char_spec (x % 4 * 16 + y / 16) (by omega)
    have h3 := b64_char_spec (y % 16 * 4 + z / 64) (by omega)
    have h4 := b64_char_spec (z % 64) (by omega)
    have hrest := ih (fun a ha => h a (by simp [ha]))
    simp only [base64EncodeChars, base64Decode]
    rw [if_neg (by
        intro hcon
        exact h3.2 hcon.2.1),
      if_neg (by
        intro hcon
        exact h4.2 hcon.2),
      h1.1, h2.1, h3.1, h4.1]
    simp only [Option.some_bind]
    rw [hrest]
    dsimp only [Option.map]
    congr 1
    have e1 : x / 4 * 4 + (x % 4 * 16 + y / 16) / 16 = x := by omega
    have e2 : (x % 4 * 16 + y / 16) % 16 * 16 + (y % 16 * 4 + z / 64) / 4 = y := by
      omega
    have e3 : (y % 16 * 4 + z / 64) % 4 * 64 + z % 64 = z := by omega
    rw [e1, e2, e3]

/-- Replacing the marker at the head of the string removes it and continues. -/
theorem stripSha256_marker (rest : List Char) :
    stripSha256 ("sha256:".data ++ rest) = stripSha256 rest := rfl

/-- A string without a colon contains no `sha256:` occurrence, so the
replacement leaves it unchanged. -/
theorem stripSha256_no_colon (s : List Char) (h : ∀ c ∈ s, c ≠ ':') :
    stripSha256 s = s := by
  induction s using stripSha256.induct with
  | case1 rest ih => exact absurd rfl (h ':' (by simp))
  | case2 c rest hne ih =>
    rw [stripSha256.eq_def]
    split
    · rename_i rest1 heq
      exact absurd rfl (h ':' (by rw [heq]; simp))
    · rename_i c2 rest2 hne2 heq
      rw [List.cons.injEq] at heq
      rw [← heq.1, ← heq.2, ih fun x hx => h x (by simp [hx])]
    · rename_i heq
      exact absurd heq (by simp)
  | case3 => rfl

/-! Settling the claims. -/

/-- Claim C1: for every pulled manifest, the direct-blob path is taken if and
only if the classifier reports `isWasm` true and `isEncrypted` false, where
`isWasm` holds exactly when the config media type or some layer media type
contains the WASM marker substring and `isEncrypted` exactly when some layer
media type contains the encryption marker substring; in every other flag
combination the layered-pull path is taken. -/
theorem classify_C1 (m : OciImageManifest) :
    (is_wasm_image m = true ↔
      strContains "wasm".data m.config.mediaType = true ∨
        ∃ l ∈ m.layers, strContains "wasm".data l.mediaType = true) ∧
    (is_encrypted m = true ↔
      ∃ l ∈ m.layers, strContains "encrypted".data l.mediaType = true) ∧
    (choose_pull_path m = PullPath.directBlob ↔
      is_wasm_image m = true ∧ is_encrypted m = false) ∧
    (choose_pull_path m = PullPath.layeredPull ↔
      ¬(is_wasm_image m = true ∧ is_encrypted m = false)) := by
  refine ⟨?_, ?_, ?_, ?_⟩
  · simp [is_wasm_image, List.any_eq_true]
  · simp [is_encrypted, List.any_eq_true]
  · cases hw : is_wasm_image m <;> cases he : is_encrypted m <;>
      simp [choose_pull_path, hw, he]
  · cases hw : is_wasm_image m <;> cases he : is_encrypted m <;>
      simp [choose_pull_path, hw, he]

/-- Witness for C1: a one-layer plain WASM manifest is classified WASM,
not encrypted, and sent down the direct-blob path. -/
theorem classify_C1_witness :
    choose_pull_path
      ⟨⟨"application/vnd.wasm.config.v1+json".data, "sha256:c0".data⟩,
        [⟨"application/wasm".data, "sha256:ab".data⟩]⟩ = PullPath.directBlob :=
  (classify_C1 _).2.2.1.mpr ⟨by decide, by decide⟩

/-- Claim C2: in the layered-pull path, when the configuration yields an empty
diff-id list and the manifest's layer list is non-empty, exactly one
placeholder diff-id is synthesized per layer - the empty string for an
encrypted image and the layer's own digest otherwise; a non-empty diff-id
list is used unchanged. -/
theorem diff_ids_C2 (diff_ids : List (List Char)) (layers : List OciDescriptor)
    (encrypted : Bool) :
    (diff_ids = [] → layers ≠ [] →
      compute_diff_ids diff_ids layers encrypted =
        layers.map (fun layer => if encrypted then [] else layer.digest) ∧
      (compute_diff_ids diff_ids layers encrypted).length = layers.length) ∧
    (diff_ids ≠ [] → compute_diff_ids diff_ids layers encrypted = diff_ids) := by
  constructor
  · intro h1 h2
    subst h1
    have hl : layers.isEmpty = false := by
      rcases layers with _ | ⟨a, t⟩
      · exact absurd rfl h2
      · rfl
    exact ⟨by simp [compute_diff_ids, hl], by simp [compute_diff_ids, hl]⟩
  · intro h1
    have hd : diff_ids.isEmpty = false := by
      rcases diff_ids with _ | ⟨a, t⟩
      · exact absurd rfl h1
      · rfl
    simp [compute_diff_ids, hd]

/-- Witness for C2: one encrypted layer and no configuration diff-ids yield
exactly one empty placeholder. -/
theorem diff_ids_C2_witness :
    compute_diff_ids [] [⟨"application/octet-stream".data, "sha256:aa".data⟩]
      true = [[]] := by
  have h :=
    (diff_ids_C2 [] [⟨"application/octet-stream".data, "sha256:aa".data⟩]
      true).1 rfl (by simp)
  simpa using h.1

/-- Counterexample for C3 as stated: a 33-byte key of `!` characters is not 32
bytes and its trimmed text fails to base64-decode, so normalization fails
through the decode-failure branch, whose message carries the original length
and the trimmed key text but no decoded byte length. -/
theorem normalize_C3_counterexample :
    get_kek_normalize (List.replicate 33 33) =
      Except.error (KekError.decodeFailed 33 (List.replicate 33 33)) ∧
    KekError.mentionsDecodedLength
      (KekError.decodeFailed 33 (List.replicate 33 33)) = false := by
  have hl : utf8LossyDecode (List.replicate 33 33) = List.replicate 33 33 :=
    utf8LossyDecode_ascii _ (by decide)
  refine ⟨?_, rfl⟩
  unfold get_kek_normalize
  rw [if_pos (by decide : (List.replicate 33 33).length ≠ 32)]
  simp only [hl]
  rw [show rustTrim (List.replicate 33 33) = List.replicate 33 33 from by decide]
  rw [show base64Decode (utf8Encode (List.replicate 33 33)) = none from by
    decide]
  simp

/-- Claim C3 (amended): for every key buffer whose length is not 32 bytes and
whose trimmed UTF-8 interpretation does not base64-decode to exactly 32
bytes, normalization (the tail of `get_kek`) fails and always reports the
original byte length; the decoded byte length is additionally reported
exactly when the base64 decode succeeds (with a length other than 32), while
a failing decode reports the trimmed key text instead. -/
theorem normalize_C3_amended (key : List Nat) (h32 : key.length ≠ 32)
    (hdec : ∀ d,
      base64Decode (utf8Encode (rustTrim (utf8LossyDecode key))) = some d →
        d.length ≠ 32) :
    ∃ e, get_kek_normalize key = Except.error e ∧
      KekError.reportedOriginalLength e = key.length ∧
      (base64Decode (utf8Encode (rustTrim (utf8LossyDecode key))) = none →
        e = KekError.decodeFailed key.length (rustTrim (utf8LossyDecode key))) ∧
      (∀ d,
        base64Decode (utf8Encode (rustTrim (utf8LossyDecode key))) = some d →
          e = KekError.badDecodedLength key.length d.length) := by
  rcases hd : base64Decode (utf8Encode (rustTrim (utf8LossyDecode key)))
    with _ | d
  · refine ⟨KekError.decodeFailed key.length (rustTrim (utf8LossyDecode key)),
      ?_, rfl, fun _ => rfl, ?_⟩
    · unfold get_kek_normalize
      rw [if_pos h32]
      simp only [hd]
    · intro d hdd
      exact Option.noConfusion hdd
  · refine ⟨KekError.badDecodedLength key.length d.length, ?_, rfl, ?_, ?_⟩
    · unfold get_kek_normalize
      rw [if_pos h32]
      simp only [hd]
      rw [if_neg (hdec d hd)]
    · intro hn
      exact Option.noConfusion hn
    · intro d2 hdd
      injection hdd with hh
      rw [hh]

/-- Witness for the amended C3: the base64 text of sixteen `A` bytes is a
24-byte key that decodes to 16 bytes, so normalization fails reporting
original length 24 and decoded length 16. -/
theorem normalize_C3_amended_witness :
    get_kek_normalize ("QUFBQUFBQUFBQUFBQUFBQQ==".data.map Char.toNat) =
      Except.error (KekError.badDecodedLength 24 16) := by
  have hpipe : base64Decode (utf8Encode (rustTrim (utf8LossyDecode
      ("QUFBQUFBQUFBQUFBQUFBQQ==".data.map Char.toNat)))) =
      some (List.replicate 16 65) := by
    rw [utf8LossyDecode_ascii _ (by decide)]
    decide
  obtain ⟨e, he, ho, hn, hs⟩ :=
    normalize_C3_amended ("QUFBQUFBQUFBQUFBQUFBQQ==".data.map Char.toNat)
      (by decide)
      (fun d hd => by
        rw [hpipe] at hd
        injection hd with hh
        rw [← hh]
        decide)
  have he2 := hs _ hpipe
  rw [he, he2,
    show ("QUFBQUFBQUFBQUFBQUFBQQ==".data.map Char.toNat).length = 24 from by
      decide,
    show (List.replicate 16 (65 : Nat)).length = 16 from by decide]

/-- Counterexample for C4 as stated: a broker response with status 500 is not
a success status, yet `register_kek` returns success, because the response is
discarded rather than checked. -/
theorem register_kek_C4_counterexample :
    register_kek "default/key/kek1".data [0]
      (fun _ => SendOutcome.response 500) = Except.ok () ∧
    isSuccessStatus 500 = false := ⟨rfl, rfl⟩

/-- Claim C4 (amended): key registration issues a bearer-authenticated POST
with Content-Type `application/octet-stream` and the raw key as body to the
deterministic URL; a transport failure is a reported error, but the response
status is ignored - any received response, success or not, yields success. -/
theorem register_kek_C4_amended (kid : List Char) (key : List Nat)
    (transport : HttpPostRequest → SendOutcome) :
    (register_kek_request kid key).path =
      "kbs/v0/resource/".data ++ stripLeadingSlash kid ∧
    (register_kek_request kid key).contentType =
      "application/octet-stream".data ∧
    (register_kek_request kid key).bearerAuth = true ∧
    (register_kek_request kid key).body = key ∧
    (register_kek kid key transport = Except.ok () ↔
      ∃ s, transport (register_kek_request kid key) = SendOutcome.response s) ∧
    (register_kek kid key transport = Except.error RegisterError.transport ↔
      transport (register_kek_request kid key) = SendOutcome.transportError) := by
  refine ⟨rfl, rfl, rfl, rfl, ?_, ?_⟩
  · constructor
    · intro h
      unfold register_kek at h
      rcases ht : transport (register_kek_request kid key) with _ | s
      · rw [ht] at h
        exact absurd h (by simp)
      · exact ⟨s, rfl⟩
    · rintro ⟨s, hs⟩
      unfold register_kek
      rw [hs]
  · constructor
    · intro h
      unfold register_kek at h
      rcases ht : transport (register_kek_request kid key) with _ | s
      · rfl
      · rw [ht] at h
        exact absurd h (by simp)
    · intro hs
      unfold register_kek
      rw [hs]

/-- Witness for the amended C4: a 200 response makes registration succeed. -/
theorem register_kek_C4_amended_witness :
    register_kek "default/key/kek1".data [7]
      (fun _ => SendOutcome.response 200) = Except.ok () :=
  ((register_kek_C4_amended "default/key/kek1".data [7]
      (fun _ => SendOutcome.response 200)).2.2.2.2.1).mpr ⟨200, rfl⟩

/-- Claim C5: module location checks the fixed filename `module.wasm` in the
store path first; when that file is absent, it enumerates the direct entries
and returns the first regular file with extension `wasm`; when neither
exists, it fails with an error naming the searched store path. -/
theorem locate_C5 (storePath : List Char) (entries : List DirEntry) :
    ((∃ e ∈ entries, isModuleWasmEntry e = true) →
      locate_module storePath entries =
        Except.ok (storePath ++ "/module.wasm".data)) ∧
    ((¬ ∃ e ∈ entries, isModuleWasmEntry e = true) →
      ∀ e, entries.find? isWasmFileEntry = some e →
        e ∈ entries ∧ e.isFile = true ∧
          fileExtension e.name = some "wasm".data ∧
          locate_module storePath entries =
            Except.ok (storePath ++ '/' :: e.name)) ∧
    ((¬ ∃ e ∈ entries, isModuleWasmEntry e = true) →
      entries.find? isWasmFileEntry = none →
      locate_module storePath entries =
        Except.error (LocateError.notFound storePath)) := by
  refine ⟨?_, ?_, ?_⟩
  · intro h
    have ha : entries.any isModuleWasmEntry = true := List.any_eq_true.mpr h
    unfold locate_module
    rw [if_pos ha]
  · intro h e hf
    have ha : ¬ entries.any isModuleWasmEntry = true :=
      fun hc => h (List.any_eq_true.mp hc)
    have hp := List.find?_some hf
    have hm := List.mem_of_find?_eq_some hf
    have hp2 : e.isFile = true ∧ fileExtension e.name = some "wasm".data := by
      simpa [isWasmFileEntry] using hp
    refine ⟨hm, hp2.1, hp2.2, ?_⟩
    unfold locate_module
    rw [if_neg ha, hf]
  · intro h hf
    have ha : ¬ entries.any isModuleWasmEntry = true :=
      fun hc => h (List.any_eq_true.mp hc)
    unfold locate_module
    rw [if_neg ha, hf]

/-- Witness for C5: with no `module.wasm` present, the first regular `.wasm`
file in entry order is returned under the searched store path. -/
theorem locate_C5_witness :
    locate_module "/store/l0".data
      [⟨"a.txt".data, true⟩, ⟨"b.wasm".data, true⟩, ⟨"c.wasm".data, true⟩] =
      Except.ok ("/store/l0".data ++ '/' :: "b.wasm".data) :=
  ((locate_C5 "/store/l0".data
      [⟨"a.txt".data, true⟩, ⟨"b.wasm".data, true⟩, ⟨"c.wasm".data, true⟩]).2.1
    (by decide) ⟨"b.wasm".data, true⟩ (by decide)).2.2.2

/-- Claim C6: for every resource-reference string, parsing it with a leading
path separator and parsing it without one yield the same identifier - the
leading separator is always stripped before parsing, in both the fetch
(`get_kek`) and register (`register_kek`) operations. -/
theorem resource_ref_C6 (kid : List Char) (h : kid.head? ≠ some '/') :
    get_kek_resource_id ('/' :: kid) = get_kek_resource_id kid ∧
    register_kek_path ('/' :: kid) = register_kek_path kid := by
  have hs : stripLeadingSlash ('/' :: kid) = kid := by
    show (if '/' = '/' then kid else '/' :: kid) = kid
    rw [if_pos rfl]
  have hk : stripLeadingSlash kid = kid := by
    rcases kid with _ | ⟨c, rest⟩
    · rfl
    · show (if c = '/' then rest else c :: rest) = c :: rest
      rw [if_neg (fun hc => h (by rw [hc]; rfl))]
  exact ⟨by unfold get_kek_resource_id; rw [hs, hk],
    by unfold register_kek_path; rw [hs, hk]⟩

/-- Witness for C6: a concrete three-component reference parses to the same
identifier and posts to the same path with or without the leading slash. -/
theorem resource_ref_C6_witness :
    get_kek_resource_id ('/' :: "default/key/kek1".data) =
      get_kek_resource_id "default/key/kek1".data ∧
    register_kek_path ('/' :: "default/key/kek1".data) =
      register_kek_path "default/key/kek1".data :=
  resource_ref_C6 "default/key/kek1".data (by decide)

/-- Counterexample for C7 as stated: a digest with algorithm prefix `sha512:`
keeps its prefix in the written filename, because the code removes only the
literal substring `sha256:` - so the name differs from the digest-without-
prefix name the claim prescribes for every digest. -/
theorem direct_blob_C7_counterexample :
    direct_blob_path_filename
      ⟨⟨"application/vnd.wasm.config.v1+json".data, "sha256:c0".data⟩,
        [⟨"application/wasm".data, "sha512:abcd".data⟩]⟩ =
      some "sha512:abcd.wasm".data ∧
    specExpectedFilename "sha512:abcd".data = "abcd.wasm".data ∧
    ("sha512:abcd.wasm".data : List Char) ≠ "abcd.wasm".data :=
  ⟨by decide, by decide, by decide⟩

/-- Claim C7 (amended): in the direct-blob path the module file is named by
the first layer's digest with every occurrence of the literal substring
`sha256:` removed, followed by the `.wasm` extension; in particular, for a
standard digest `sha256:` followed by a colon-free remainder, the filename is
the remainder followed by `.wasm`. -/
theorem direct_blob_C7_amended (m : OciImageManifest) (l : OciDescriptor)
    (hl : m.layers.head? = some l) :
    direct_blob_path_filename m = some (stripSha256 l.digest ++ ".wasm".data) ∧
    (∀ rest : List Char, l.digest = "sha256:".data ++ rest →
      (∀ c ∈ rest, c ≠ ':') →
      direct_blob_path_filename m = some (rest ++ ".wasm".data)) := by
  constructor
  · unfold direct_blob_path_filename
    rw [hl]
    rfl
  · intro rest hd hc
    unfold direct_blob_path_filename
    rw [hl]
    dsimp only [Option.map]
    unfold direct_blob_filename
    rw [hd, stripSha256_marker, stripSha256_no_colon rest hc]

/-- Witness for the amended C7: a standard `sha256:` digest yields the
prefix-free filename. -/
theorem direct_blob_C7_amended_witness :
    direct_blob_path_filename
      ⟨⟨"application/vnd.wasm.config.v1+json".data, "sha256:c0".data⟩,
        [⟨"application/wasm".data, "sha256:abcd".data⟩]⟩ =
      some ("abcd".data ++ ".wasm".data) :=
  (direct_blob_C7_amended
      ⟨⟨"application/vnd.wasm.config.v1+json".data, "sha256:c0".data⟩,
        [⟨"application/wasm".data, "sha256:abcd".data⟩]⟩
      ⟨"application/wasm".data, "sha256:abcd".data⟩ rfl).2
    "abcd".data rfl (by decide)

/-- Claim C9: after a layered pull, module discovery inspects only the store
path of the first materialized layer - the fixed-filename check and the
fallback extension search are both confined to that single directory, so a
module present only in a later layer's store path is never found. -/
theorem layered_first_layer_C9 (p : List Char) (rest : List (List Char))
    (fs : List Char → List DirEntry) :
    find_module_after_layered_pull (p :: rest) fs = locate_module p (fs p) ∧
    (locate_module p (fs p) = Except.error (LocateError.notFound p) →
      (∃ q ∈ rest, ∃ e ∈ fs q, isModuleWasmEntry e = true) →
      find_module_after_layered_pull (p :: rest) fs =
        Except.error (LocateError.notFound p)) := by
  refine ⟨rfl, fun hf _ => ?_⟩
  rw [show find_module_after_layered_pull (p :: rest) fs =
    locate_module p (fs p) from rfl, hf]

/-- Witness for C9: the first layer's directory is empty, so discovery fails
naming its path even though the second layer's directory holds
`module.wasm`. -/
theorem layered_first_layer_C9_witness :
    find_module_after_layered_pull ["/store/l0".data, "/store/l1".data]
      (fun q => if q = "/store/l1".data
        then [⟨"module.wasm".data, true⟩] else []) =
      Except.error (LocateError.notFound "/store/l0".data) :=
  (layered_first_layer_C9 "/store/l0".data ["/store/l1".data] _).2
    rfl
    ⟨"/store/l1".data, by simp, ⟨"module.wasm".data, true⟩, by decide, by decide⟩

/-- Claim C10: the runner's standalone key fetch applies no 32-byte
normalization - it fails exactly when the broker returns an empty byte
string, with a fixed message, and returns every non-empty response unmodified
whatever its length. -/
theorem decryption_key_C10 (key : List Nat) :
    (get_decryption_key_validate key = Except.ok key ↔ key ≠ []) ∧
    (key = [] →
      get_decryption_key_validate key =
        Except.error "Invalid decryption key from KBS: Empty key".data) ∧
    (∀ k2, get_decryption_key_validate key = Except.ok k2 → k2 = key) := by
  refine ⟨⟨?_, ?_⟩, ?_, ?_⟩
  · intro h hk
    subst hk
    exact absurd h (by simp [get_decryption_key_validate])
  · intro h
    rcases key with _ | ⟨a, t⟩
    · exact absurd rfl h
    · rfl
  · intro h
    subst h
    rfl
  · intro k2 h
    rcases key with _ | ⟨a, t⟩
    · exact absurd h (by simp [get_decryption_key_validate])
    · have h2 : Except.ok (ε := List Char) (a :: t) = Except.ok k2 := h
      injection h2 with hh
      exact hh.symm

/-- Witness for C10: a 3-byte key - far from 32 bytes - is returned
unchanged. -/
theorem decryption_key_C10_witness :
    get_decryption_key_validate [1, 2, 3] = Except.ok [1, 2, 3] :=
  (decryption_key_C10 [1, 2, 3]).1.mpr (by decide)

/-- Claim C8: normalization (the tail of `get_kek`) recovers exactly the
original 32 bytes from the base64 encoding of any 32-byte value surrounded by
arbitrary whitespace - such a buffer is never itself 32 bytes, so the result
really is produced by the trim-and-decode path - and returns any buffer that
is already exactly 32 bytes unchanged. -/
theorem normalize_roundtrip_C8 (key : List Nat) :
    (∀ ws1 ws2 : List Nat, key.length = 32 → (∀ x ∈ key, x < 256) →
      (∀ c ∈ ws1, rustIsWhitespace c = true) →
      (∀ c ∈ ws2, rustIsWhitespace c = true) →
      (utf8Encode ws1 ++ base64EncodeChars key ++ utf8Encode ws2).length ≠ 32 ∧
      get_kek_normalize
        (utf8Encode ws1 ++ base64EncodeChars key ++ utf8Encode ws2) =
        Except.ok key) ∧
    (key.length = 32 → get_kek_normalize key = Except.ok key) := by
  refine ⟨?_, ?_⟩
  case refine_2 =>
    intro h
    unfold get_kek_normalize
    rw [if_neg (by omega)]
  intro ws1 ws2 h32 hb hw1 hw2
  have hkey_ne : key ≠ [] := by
    intro hk
    rw [hk] at h32
    simp at h32
  have henc_len := base64EncodeChars_length key hkey_ne
  have hprops := base64EncodeChars_props key
  have hlen : (utf8Encode ws1 ++ base64EncodeChars key ++
      utf8Encode ws2).length ≠ 32 := by
    rw [List.length_append, List.length_append]
    omega
  have hlossy : utf8LossyDecode
      (utf8Encode ws1 ++ base64EncodeChars key ++ utf8Encode ws2) =
      ws1 ++ base64EncodeChars key ++ ws2 := by
    rw [List.append_assoc, utf8LossyDecode_ws_append ws1 _ hw1,
      utf8LossyDecode_ascii_append _ _ (fun c hc => (hprops c hc).1)]
    have h2 : utf8LossyDecode (utf8Encode ws2) = ws2 := by
      have h3 := utf8LossyDecode_ws_append ws2 [] hw2
      simpa [utf8LossyDecode_nil] using h3
    rw [h2, List.append_assoc]
  have htrim : rustTrim (ws1 ++ base64EncodeChars key ++ ws2) =
      base64EncodeChars key :=
    rustTrim_sandwich ws1 _ ws2 hw1 hw2 (fun c hc => (hprops c hc).2)
      (by
        intro hnil
        rw [hnil] at henc_len
        simp at henc_len)
  have hascii : utf8Encode (base64EncodeChars key) = base64EncodeChars key :=
    utf8Encode_ascii _ (fun c hc => (hprops c hc).1)
  have hdec := base64Decode_encode key hb
  refine ⟨hlen, ?_⟩
  unfold get_kek_normalize
  rw [if_pos hlen]
  simp only [hlossy, htrim, hascii, hdec]
  rw [if_pos h32]

/-- Witness for C8: a literal newline byte on each side of the base64 text of
32 `A` bytes normalizes back to exactly those 32 bytes. -/
theorem normalize_roundtrip_C8_witness :
    get_kek_normalize
      ([10] ++ base64EncodeChars (List.replicate 32 65) ++ [10]) =
      Except.ok (List.replicate 32 65) := by
  have he : utf8Encode [10] = [10] := rfl
  rw [← he]
  exact ((normalize_roundtrip_C8 (List.replicate 32 65)).1 [10] [10]
    (by decide) (by decide) (by decide) (by decide)).2
